import Mathlib

/-!
Verification development for the `jel` library ("JSON Expression Language"),
which transcodes a whitelisted Lisp-style JSON query language into SQL text
plus positional parameters, and parses textual `"field asc|desc"` ordering
directives into `order by` fragments.

The repository contains two generations of the expression decoder:
* the current one (`jel.go` + `jel_internal.go`), built on `sqlb.Bui`,
  which signals failures by panicking (`try`/`panic`) and exposes
  `Expr.AppendExpr` with no error return, and
* an older one (the unnamed source file + `utils.go` + `ord.go`), built on
  `sqlb.Query`, which converts internal panics back into returned errors
  (`rec`/`must`) at each `decodeOp*` boundary.

Both are embedded below: the `V1` family models the current decoder, the
`V0` family models the older one.  The ordering compiler (`ord.go`) exists
only in the older generation.  JSON tokenization, reflection and the SQL
accumulation buffers are external collaborators; they are modelled at their
interfaces (the JSON AST `Json`, the schema `Ty`, and the buffer types `Bui`
and `Query`, whose space-joining behaviour is fixed by the package's own
tests and examples).
-/

set_option autoImplicit false

namespace Jel

/-- ASCII word character, Go regexp (RE2) class `\w` = `[0-9A-Za-z_]`. -/
def isWordChar (c : Char) : Bool := c.isAlphanum || c == '_'

/-- A character allowed anywhere in a dotted path: word character or `.`. -/
def isIdentChar (c : Char) : Bool := isWordChar c || c == '.'

/-- Whitespace per Go regexp (RE2) class `\s` = `[\t\n\f\r ]`. -/
def isGoSpace (c : Char) : Bool :=
  c == ' ' || c == '\t' || c == '\n' || c == '\x0c' || c == '\r'

/--
Recognizer for the anchored regexp `^(?:\w+\.)*\w+$` (`dottedPathReg` in
`utils.go` / `jel_internal.go`).  The flag records whether the current
segment already contains at least one word character; a `.` is only legal
after a nonempty segment, and the string must end inside a nonempty segment.
-/
def dottedAux : Bool → List Char → Bool
  | b, [] => b
  | b, c :: rest =>
    if isWordChar c then dottedAux true rest
    else if c == '.' then b && dottedAux false rest
    else false

/-- Model of `dottedPathReg.MatchString`: the whole string matches the anchored pattern `(?:\w+\.)*\w+`. -/
def dottedMatch (s : String) : Bool := dottedAux false s.toList

/-- Go `strings.Split` on character lists: split at every `.`. -/
def splitDotsAux (cur : List Char) : List Char → List (List Char)
  | [] => [cur.reverse]
  | c :: rest =>
    if c == '.' then cur.reverse :: splitDotsAux [] rest
    else splitDotsAux (c :: cur) rest

/-- Split a dotted path into its segments (`strings.Split(pathStr, ".")`). -/
def pathSegs (s : String) : List String :=
  (splitDotsAux [] s.toList).map String.mk

mutual
/-- A parsed JSON document (the JSON tokenizer is an external collaborator;
the decoder dispatches on `firstMeaningfulByte`, i.e. on the constructor). -/
inductive Json where
  | null
  | bool (b : Bool)
  | num (n : Int)
  | str (s : String)
  | arr (elems : JsonList)
  | obj (fields : JsonPairs)

/-- The elements of a JSON array (`[]json.RawMessage`). -/
inductive JsonList where
  | nil
  | cons (hd : Json) (tl : JsonList)

/-- The fields of a JSON object. -/
inductive JsonPairs where
  | nil
  | cons (key : String) (val : Json) (tl : JsonPairs)
end

/-- Length of a decoded JSON list. -/
def jlength : JsonList → Nat
  | .nil => 0
  | .cons _ t => jlength t + 1

mutual
/-- Nesting depth of a JSON value: number of levels of lists/objects. -/
def jsonDepth : Json → Nat
  | .arr l => 1 + jsonDepthList l
  | .obj kvs => 1 + jsonDepthPairs kvs
  | _ => 0

/-- Maximum depth over the elements of a list. -/
def jsonDepthList : JsonList → Nat
  | .nil => 0
  | .cons j t => max (jsonDepth j) (jsonDepthList t)

/-- Maximum depth over the values of an object. -/
def jsonDepthPairs : JsonPairs → Nat
  | .nil => 0
  | .cons _ v t => max (jsonDepth v) (jsonDepthPairs t)
end

mutual
/-- A Go schema type, as consulted through reflection: either a primitive
leaf (string / bool / number / `*time.Time`) or a struct whose fields carry
`json` and `db` tags.  Pointer/collection wrappers are already unwrapped. -/
inductive Ty where
  | str
  | bool
  | num
  | time
  | structT (fields : FieldList)

/-- The fields of a struct type, in declaration order, each with its
`json` tag identifier, its `db` tag identifier, and its type. -/
inductive FieldList where
  | nil
  | cons (jsonName : String) (dbName : String) (ty : Ty) (tl : FieldList)
end

/-- A dynamic Go value produced by JSON-decoding (an `interface{}` or a
freshly allocated instance of a struct field's type). -/
inductive Val where
  | null
  | bool (b : Bool)
  | num (n : Int)
  | str (s : String)
  | time (s : String)
  | raw (j : Json)

/-- The error values the package produces (all are `fmt.Errorf` values in
Go; here they are identified by their cause and the context they carry). -/
inductive JelErr where
  /-- Go error `[jel] unexpected dict in input`. -/
  | unexpectedDict
  /-- Go error `[jel] lists must have at least one element, found empty list`. -/
  | emptyList
  /-- Go error `[jel] first list element must be a string`. -/
  | headNotString
  /-- Go error `[jel] <form> operation %q must have ... arguments, found %v`. -/
  | arity (op : String) (found : Nat)
  /-- Go error `[jel] cast into %q must have exactly 1 argument, found %v`. -/
  | castArity (op : String) (found : Nat)
  /-- Go error `[jel] expected a valid dot-separated identifier, got %q`. -/
  | invalidPath (s : String)
  /-- Go error `[jel] can't find field by path %q: no type provided`. -/
  | noType (s : String)
  /-- Go error `[jel] no struct field corresponding to JSON field name %q ...`. -/
  | unknownField (name : String)
  /-- Go error `[jel] no column name corresponding to %q ...`. -/
  | noColumn (name : String)
  /-- failure of `json.Unmarshal` into the resolved leaf type in a cast -/
  | castDecode
  /-- failure of `json.Unmarshal` in `decodeAny` (empty/garbage input) -/
  | scalarDecode
  /-- Go error `[jel] unexpected %q in SQL identifier %q` (double quote). -/
  | quoteInIdent (ident : String)
  /-- Go error `[jel] %q is not a valid ordering string`. -/
  | badOrd (s : String)

/-- Find the first struct field whose `json` tag matches `name`
(`sfieldByJsonName` / `fieldByJsonName`: `refut.TraverseStructRtype` visits
fields in declaration order and stops at the first match). -/
def findField : FieldList → String → Option (String × Ty)
  | .nil, _ => none
  | .cons jn dbn t rest, name =>
    if jn == name then some (dbn, t) else findField rest name

/--
The segment loop of `structFieldByJsonPath` / `fieldByJsonPath`: for each
segment, look the field up by `json` name in the current struct type
(failing on a non-struct type, as `refut.TraverseStructRtype` does), check
that its `db` tag is nonempty, accumulate the column name, and continue
with the field's type.  Returns the leaf field's type and the column path.
-/
def resolveSegs : Ty → String → List String → List String →
    Except JelErr (Ty × List String)
  | .structT fields, seg, rest, acc =>
    match findField fields seg with
    | none => .error (.unknownField seg)
    | some (dbn, fty) =>
      if dbn == "" then .error (.noColumn seg)
      else
        match rest with
        | [] => .ok (fty, acc ++ [dbn])
        | s2 :: r2 => resolveSegs fty s2 r2 (acc ++ [dbn])
  | _, seg, _, _ => .error (.unknownField seg)

/--
Model of `structFieldByJsonPath` (`utils.go`) / `fieldByJsonPath`
(`jel_internal.go`): validate the dotted path against `dottedPathReg`,
require a schema type, then resolve segment by segment.
-/
def fieldByJsonPath (ty : Option Ty) (pathStr : String) :
    Except JelErr (Ty × List String) :=
  if dottedMatch pathStr = false then .error (.invalidPath pathStr)
  else
    match ty with
    | none => .error (.noType pathStr)
    | some t =>
      match pathSegs pathStr with
      | [] => .error (.invalidPath pathStr)
      | s :: rest => resolveSegs t s rest []

/--
Model of `json.Unmarshal(raw, reflect.New(leafType))`, at the interface of the
`encoding/json` collaborator: JSON `null` decodes into anything (leaving
the zero value); otherwise the JSON shape must fit the leaf type.  The
string contents of a `time` value are not further validated here.
-/
def decodeTy : Ty → Json → Option Val
  | _, .null => some .null
  | .str, .str s => some (.str s)
  | .bool, .bool b => some (.bool b)
  | .num, .num n => some (.num n)
  | .time, .str s => some (.time s)
  | .structT _, .obj kvs => some (.raw (.obj kvs))
  | _, _ => none

/-- Whether the string contains a double quote (`strings.Contains(str, `"`)`). -/
def hasQuote (s : String) : Bool := s.toList.any (· == '"')

/-- The tail loop of `appendSqlPath` (`utils.go`): every segment after the
first is emitted as `."segment"`, rejecting embedded double quotes. -/
def appendSqlRest (buf : String) : List String → String × Option JelErr
  | [] => (buf, none)
  | s :: rest =>
    if hasQuote s then (buf, some (.quoteInIdent s))
    else appendSqlRest (buf ++ ".\"" ++ s ++ "\"") rest

/--
Model of `appendSqlPath` (`utils.go`): emit a column path.  A single segment is
emitted as `"seg"`; with more segments the first is emitted as `("seg")`
and the rest as `."seg"`.  A segment containing a double quote makes the
function panic (modelled as the error component; the buffer keeps what was
appended before the offending segment, as in Go).
-/
def appendSqlPathGo (buf : String) (path : List String) :
    String × Option JelErr :=
  match path with
  | [] => (buf, none)
  | first :: rest =>
    if hasQuote first then (buf, some (.quoteInIdent first))
    else
      appendSqlRest
        (buf ++ (if rest.isEmpty then "\"" ++ first ++ "\""
                 else "(\"" ++ first ++ "\")"))
        rest

/-- Concatenation of a list of strings. -/
def strConcat : List String → String
  | [] => ""
  | s :: rest => s ++ strConcat rest

/--
The identifier-emission convention as worded in the spec (§4.3): length 1
renders as `"a"`; greater lengths render the first segment
parenthesized-and-quoted and each later segment as `."segment"`.  This is
the specification-side rendering, to be compared with `appendSqlPathGo`.
-/
def renderPathSpec : List String → String
  | [] => ""
  | first :: rest =>
    (if rest.isEmpty then "\"" ++ first ++ "\""
     else "(\"" ++ first ++ "\")") ++
    strConcat (rest.map (fun s => ".\"" ++ s ++ "\""))

/-- The syntax form of a whitelisted operation (Go `SqlOpSyntax`; the
constructors correspond to `SqlPrefix`, `SqlPostfix`, `SqlInfix`,
`SqlFunc`, `SqlAny`, `SqlBetween`). -/
inductive SqlOpForm where
  | opPre
  | opPost
  | opInf
  | opFun
  | opAny
  | opBetween

/-- The operator whitelist `SqlOps`, reproduced verbatim from the source. -/
def sqlOps : List (String × SqlOpForm) :=
  [("and", .opInf), ("or", .opInf), ("not", .opPre),
   ("is null", .opPost), ("is not null", .opPost),
   ("is true", .opPost), ("is not true", .opPost),
   ("is false", .opPost), ("is not false", .opPost),
   ("is unknown", .opPost), ("is not unknown", .opPost),
   ("is distinct from", .opInf), ("is not distinct from", .opInf),
   ("=", .opInf), ("~", .opInf), ("~*", .opInf), ("~=", .opInf),
   ("<>", .opInf), ("<", .opInf), (">", .opInf), (">=", .opInf),
   ("<=", .opInf), ("@@", .opInf), ("any", .opAny),
   ("between", .opBetween)]

/-- Map lookup in `SqlOps`; a missing name is "not an operator". -/
def sqlOpsLookup (name : String) : Option SqlOpForm :=
  (sqlOps.find? (fun kv => kv.1 == name)).map (fun kv => kv.2)

/-- The 1-based positional parameter `$n`. -/
def placeholder (n : Nat) : String := "$" ++ toString n

/--
The accumulation buffer of the current decoder (`sqlb.Bui`): SQL text plus
the ordered argument list.  External collaborator, modelled at the
interface fixed by the package's tests and examples.
-/
structure Bui where
  text : String
  args : List Val

/-- Whether `sqlb` inserts a space between the buffer and the next chunk:
it does unless the buffer is empty, the buffer ends in an opening paren, or
the chunk starts with a closing paren or a comma (behaviour fixed by the
expected output of `TestTranscode` and `ExampleExpr`). -/
def buiNeedSpace (t s : String) : Bool :=
  match t.toList.getLast?, s.toList.head? with
  | some c1, some c2 => !(c1 == '(') && !(c2 == ')') && !(c2 == ',')
  | _, _ => false

/-- Model of `sqlb.Bui.Str`: append a chunk, space-separated when needed. -/
def Bui.str (b : Bui) (s : String) : Bui :=
  { b with text := if buiNeedSpace b.text s then b.text ++ " " ++ s
                   else b.text ++ s }

/-- Model of `bui.Param(bui.Arg(v))`: append `v` to the argument list and emit the
corresponding 1-based positional placeholder into the text. -/
def Bui.param (b : Bui) (v : Val) : Bui :=
  { text := (Bui.str b (placeholder (b.args.length + 1))).text
    args := b.args ++ [v] }

/-- The current `Expr` (`jel.go`): stored input text, schema type, boolean
context flag.  The stored text is either empty (`none`) or a JSON document
(`some j`); JSON tokenization itself is an external collaborator. -/
structure Expr where
  text : Option Json
  type : Option Ty
  isBool : Bool

/--
How a public entry point finishes: with a value, with a returned Go
`error`, or with a panic escaping to the caller (an uncaught fault).
-/
inductive Outcome (α : Type) where
  | ok (a : α)
  | err (e : JelErr)
  | fault (e : JelErr)

/-- Whether an outcome is a success. -/
def Outcome.isOk {α : Type} : Outcome α → Bool
  | .ok _ => true
  | _ => false

/-- Model of `Expr.decodeCast` (`jel.go`): the head was not a whitelisted operator,
so it is resolved as a field path; exactly one argument is JSON-decoded
into the leaf type and appended as one positional parameter. -/
def decodeCastV1 (ty : Option Ty) (bui : Bui) (name : String) :
    JsonList → Except JelErr Bui
  | .cons a .nil =>
    match fieldByJsonPath ty name with
    | .error e => .error e
    | .ok (leaf, _) =>
      match decodeTy leaf a with
      | none => .error .castDecode
      | some v => .ok (bui.param v)
  | args => .error (.castArity name (jlength args))

/-- Model of `Expr.decodeString` (`jel.go`): resolve the string as a field path and
emit the quoted column reference (rendered by the `sqlb.Path` collaborator,
which uses the same quoting convention as `appendSqlPath`). -/
def decodeStringV1 (ty : Option Ty) (bui : Bui) (s : String) :
    Except JelErr Bui :=
  match fieldByJsonPath ty s with
  | .error e => .error e
  | .ok (_, path) =>
    match appendSqlPathGo "" path with
    | (r, none) => .ok (bui.str r)
    | (_, some e) => .error e

/-- Model of `Expr.decodeAny`: JSON-decode a scalar into a dynamic value and
append it as a positional parameter.  In Go, `json.Unmarshal` into
`interface{}` succeeds on any well-formed JSON; lists, dicts and strings
never reach this function because `decode` dispatches them earlier. -/
def decodeAnyV1 (bui : Bui) : Json → Except JelErr Bui
  | .null => .ok (bui.param .null)
  | .bool v => .ok (bui.param (.bool v))
  | .num n => .ok (bui.param (.num n))
  | .str s => .ok (bui.param (.str s))
  | .arr l => .ok (bui.param (.raw (.arr l)))
  | .obj kvs => .ok (bui.param (.raw (.obj kvs)))

mutual
/-- Model of `Expr.decode` (`jel.go`): dispatch on the JSON shape.  Dicts are always
rejected; lists are calls/casts; strings are field references; scalars are
literals.  Failures are panics in Go, modelled as `Except.error`. -/
def decodeV1 (ty : Option Ty) (bui : Bui) : Json → Except JelErr Bui
  | .obj _ => .error .unexpectedDict
  | .arr l => decodeListV1 ty bui l
  | .str s => decodeStringV1 ty bui s
  | j => decodeAnyV1 bui j

/-- Model of `Expr.decodeList` (`jel.go`): the head must be a string; whitelisted
operators dispatch on their syntax form, anything else is a cast. -/
def decodeListV1 (ty : Option Ty) (bui : Bui) : JsonList → Except JelErr Bui
  | .nil => .error .emptyList
  | .cons (.str name) args =>
    match sqlOpsLookup name with
    | some .opPre => decodeOpPreV1 ty name bui args
    | some .opPost => decodeOpPostV1 ty name bui args
    | some .opInf => decodeOpInfV1 ty name bui args
    | some .opFun => decodeOpFunV1 ty name bui args
    | some .opAny => decodeOpAnyV1 ty name bui args
    | some .opBetween => decodeOpBetweenV1 ty name bui args
    | none => decodeCastV1 ty bui name args
  | .cons _ _ => .error .headNotString

/-- Model of `Expr.decodeOpPrefix` (`jel.go`): exactly one argument; emit
`( <op> <arg> )`. -/
def decodeOpPreV1 (ty : Option Ty) (name : String) (bui : Bui) :
    JsonList → Except JelErr Bui
  | .cons a .nil =>
    match decodeV1 ty ((bui.str "(").str name) a with
    | .error e => .error e
    | .ok b1 => .ok (b1.str ")")
  | args => .error (.arity name (jlength args))

/-- Model of `Expr.decodeOpPostfix` (`jel.go`): exactly one argument; emit
`( <arg> <op> )`. -/
def decodeOpPostV1 (ty : Option Ty) (name : String) (bui : Bui) :
    JsonList → Except JelErr Bui
  | .cons a .nil =>
    match decodeV1 ty (bui.str "(") a with
    | .error e => .error e
    | .ok b1 => .ok ((b1.str name).str ")")
  | args => .error (.arity name (jlength args))

/-- Model of `Expr.decodeOpInfix` (`jel.go`): at least two arguments; emit
`( x1 <op> x2 <op> ... <op> xn )`. -/
def decodeOpInfV1 (ty : Option Ty) (name : String) (bui : Bui) :
    JsonList → Except JelErr Bui
  | .cons a (.cons b rest) =>
    match decodeV1 ty (bui.str "(") a with
    | .error e => .error e
    | .ok b1 =>
      match decodeInfRestV1 ty name b1 (.cons b rest) with
      | .error e => .error e
      | .ok b2 => .ok (b2.str ")")
  | args => .error (.arity name (jlength args))

/-- Model of `Expr.decodeOpFunc` (`jel.go`): no arity check; emit
`<op>( x1, x2, ... )` — the first argument unseparated, later ones behind
a `,`.  Unreachable from the whitelist, which has no `SqlFunc` entry, but
present in the source. -/
def decodeOpFunV1 (ty : Option Ty) (name : String) (bui : Bui) :
    JsonList → Except JelErr Bui
  | .nil => .ok (((bui.str name).str "(").str ")")
  | .cons a rest =>
    match decodeV1 ty ((bui.str name).str "(") a with
    | .error e => .error e
    | .ok b1 =>
      match decodeFunRestV1 ty b1 rest with
      | .error e => .error e
      | .ok b2 => .ok (b2.str ")")

/-- Model of `Expr.decodeOpAny` (`jel.go`): exactly two arguments; emit
`( x1 = <op>( x2 ) )`. -/
def decodeOpAnyV1 (ty : Option Ty) (name : String) (bui : Bui) :
    JsonList → Except JelErr Bui
  | .cons a (.cons b .nil) =>
    match decodeV1 ty (bui.str "(") a with
    | .error e => .error e
    | .ok b1 =>
      match decodeV1 ty (((b1.str "=").str name).str "(") b with
      | .error e => .error e
      | .ok b2 => .ok ((b2.str ")").str ")")
  | args => .error (.arity name (jlength args))

/-- Model of `Expr.decodeOpBetween` (`jel.go`): exactly three arguments;
emit `( x1 between x2 and x3 )`. -/
def decodeOpBetweenV1 (ty : Option Ty) (name : String) (bui : Bui) :
    JsonList → Except JelErr Bui
  | .cons a (.cons b (.cons c .nil)) =>
    match decodeV1 ty (bui.str "(") a with
    | .error e => .error e
    | .ok b1 =>
      match decodeV1 ty (b1.str "between") b with
      | .error e => .error e
      | .ok b2 =>
        match decodeV1 ty (b2.str "and") c with
        | .error e => .error e
        | .ok b3 => .ok (b3.str ")")
  | args => .error (.arity name (jlength args))

/-- The remaining arguments of a variadic infix operation, each preceded by
the operator name (`decodeOpInfix`'s loop from the second element on). -/
def decodeInfRestV1 (ty : Option Ty) (name : String) (bui : Bui) :
    JsonList → Except JelErr Bui
  | .nil => .ok bui
  | .cons a rest =>
    match decodeV1 ty (bui.str name) a with
    | .error e => .error e
    | .ok b1 => decodeInfRestV1 ty name b1 rest

/-- The argument loop of `decodeOpFunc` from the second element on: each
remaining argument is preceded by a `,`. -/
def decodeFunRestV1 (ty : Option Ty) (bui : Bui) :
    JsonList → Except JelErr Bui
  | .nil => .ok bui
  | .cons a rest =>
    match decodeV1 ty (bui.str ",") a with
    | .error e => .error e
    | .ok b1 => decodeFunRestV1 ty b1 rest
end

/--
Model of `Expr.AppendExpr` (`jel.go`): in boolean context with empty stored text,
emit the literal `true`; otherwise decode the stored text.  `AppendExpr`
installs no `recover`, so a decode failure escapes to the caller as a
panic (`Outcome.fault`); an empty non-boolean text fails inside
`decodeAny`'s `json.Unmarshal`.
-/
def appendExprV1 (e : Expr) (text : String) (args : List Val) :
    Outcome (String × List Val) :=
  match e.text, e.isBool with
  | none, true => .ok ((Bui.str ⟨text, args⟩ "true").text, args)
  | none, false => .fault .scalarDecode
  | some j, _ =>
    match decodeV1 e.type ⟨text, args⟩ j with
    | .ok b => .ok (b.text, b.args)
    | .error er => .fault er

/--
The accumulation buffer of the older decoder (`sqlb.Query`, embedded in the
old `Expr`): SQL text plus arguments.  Its `Append` separates chunks with a
single space whenever the buffer is nonempty (behaviour fixed by the old
test's expected output).
-/
structure Query where
  text : String
  args : List Val

/-- Model of `sqlb.Query.Append(chunk)` with no arguments: space-joined append. -/
def Query.app (q : Query) (s : String) : Query :=
  { q with text := if q.text.isEmpty then s else q.text ++ " " ++ s }

/-- Model of `self.Append("$1", val)`: the `$1` is renumbered to the next 1-based
ordinal and `val` is appended to the argument list. -/
def Query.par (q : Query) (v : Val) : Query :=
  { text := (Query.app q (placeholder (q.args.length + 1))).text
    args := q.args ++ [v] }

/-- Model of `appendStr(&self.Text, s)`: a direct, unseparated text append (used by
`decodeOpFunc`'s `", "` separator and by `appendSqlPath`). -/
def Query.raw (q : Query) (s : String) : Query :=
  { q with text := q.text ++ s }

/-- Model of `Expr.decodeCast` (old decoder): as in V1, but appending through the
`Query` and reporting the failure as a returned error. -/
def decodeCastV0 (ty : Option Ty) (q : Query) (name : String) :
    JsonList → Query × Option JelErr
  | .cons a .nil =>
    match fieldByJsonPath ty name with
    | .error e => (q, some e)
    | .ok (leaf, _) =>
      match decodeTy leaf a with
      | none => (q, some .castDecode)
      | some v => (q.par v, none)
  | args => (q, some (.castArity name (jlength args)))

/-- Model of `Expr.decodeString` (old decoder): resolve the path, then append the
quoted column reference directly onto the query text via `appendSqlPath`
(whose quote-check panic is recovered into the returned error, with the
buffer keeping whatever was appended before the offending segment). -/
def decodeStringV0 (ty : Option Ty) (q : Query) (s : String) :
    Query × Option JelErr :=
  match fieldByJsonPath ty s with
  | .error e => (q, some e)
  | .ok (_, path) =>
    match appendSqlPathGo q.text path with
    | (t, e?) => ({ q with text := t }, e?)

/-- Model of `Expr.decodeAny` (old decoder): JSON-decode a scalar into a
dynamic value and append it as a positional parameter; lists, dicts and
strings never reach this function because `decode` dispatches them
earlier. -/
def decodeAnyV0 (q : Query) : Json → Query × Option JelErr
  | .null => (q.par .null, none)
  | .bool v => (q.par (.bool v), none)
  | .num n => (q.par (.num n), none)
  | .str s => (q.par (.str s), none)
  | .arr l => (q.par (.raw (.arr l)), none)
  | .obj kvs => (q.par (.raw (.obj kvs)), none)

mutual
/-- Model of `Expr.decode` (old decoder): dispatch on the JSON shape; errors are
returned, and the query keeps all mutations made before the failure. -/
def decodeV0 (ty : Option Ty) (q : Query) : Json → Query × Option JelErr
  | .obj _ => (q, some .unexpectedDict)
  | .arr l => decodeListV0 ty q l
  | .str s => decodeStringV0 ty q s
  | j => decodeAnyV0 q j

/-- Model of `Expr.decodeList` (old decoder). -/
def decodeListV0 (ty : Option Ty) (q : Query) :
    JsonList → Query × Option JelErr
  | .nil => (q, some .emptyList)
  | .cons (.str name) args =>
    match sqlOpsLookup name with
    | some .opPre => decodeOpPreV0 ty name q args
    | some .opPost => decodeOpPostV0 ty name q args
    | some .opInf => decodeOpInfV0 ty name q args
    | some .opFun => decodeOpFunV0 ty name q args
    | some .opAny => decodeOpAnyV0 ty name q args
    | some .opBetween => decodeOpBetweenV0 ty name q args
    | none => decodeCastV0 ty q name args
  | .cons _ _ => (q, some .headNotString)

/-- Model of `Expr.decodeOpPrefix` (old decoder). -/
def decodeOpPreV0 (ty : Option Ty) (name : String) (q : Query) :
    JsonList → Query × Option JelErr
  | .cons a .nil =>
    match decodeV0 ty ((q.app "(").app name) a with
    | (q1, some e) => (q1, some e)
    | (q1, none) => (q1.app ")", none)
  | args => (q, some (.arity name (jlength args)))

/-- Model of `Expr.decodeOpPostfix` (old decoder). -/
def decodeOpPostV0 (ty : Option Ty) (name : String) (q : Query) :
    JsonList → Query × Option JelErr
  | .cons a .nil =>
    match decodeV0 ty (q.app "(") a with
    | (q1, some e) => (q1, some e)
    | (q1, none) => ((q1.app name).app ")", none)
  | args => (q, some (.arity name (jlength args)))

/-- Model of `Expr.decodeOpInfix` (old decoder). -/
def decodeOpInfV0 (ty : Option Ty) (name : String) (q : Query) :
    JsonList → Query × Option JelErr
  | .cons a (.cons b rest) =>
    match decodeV0 ty (q.app "(") a with
    | (q1, some e) => (q1, some e)
    | (q1, none) =>
      match decodeInfRestV0 ty name q1 (.cons b rest) with
      | (q2, some e) => (q2, some e)
      | (q2, none) => (q2.app ")", none)
  | args => (q, some (.arity name (jlength args)))

/-- Model of `Expr.decodeOpFunc` (old decoder): the first argument
unseparated, later ones behind a direct `", "` append. -/
def decodeOpFunV0 (ty : Option Ty) (name : String) (q : Query) :
    JsonList → Query × Option JelErr
  | .nil => ((((q.app name).app "(").app ")"), none)
  | .cons a rest =>
    match decodeV0 ty ((q.app name).app "(") a with
    | (q1, some e) => (q1, some e)
    | (q1, none) =>
      match decodeFunRestV0 ty q1 rest with
      | (q2, some e) => (q2, some e)
      | (q2, none) => (q2.app ")", none)

/-- Model of `Expr.decodeOpAny` (old decoder). -/
def decodeOpAnyV0 (ty : Option Ty) (name : String) (q : Query) :
    JsonList → Query × Option JelErr
  | .cons a (.cons b .nil) =>
    match decodeV0 ty (q.app "(") a with
    | (q1, some e) => (q1, some e)
    | (q1, none) =>
      match decodeV0 ty (((q1.app "=").app name).app "(") b with
      | (q2, some e) => (q2, some e)
      | (q2, none) => ((q2.app ")").app ")", none)
  | args => (q, some (.arity name (jlength args)))

/-- Model of `Expr.decodeOpBetween` (old decoder). -/
def decodeOpBetweenV0 (ty : Option Ty) (name : String) (q : Query) :
    JsonList → Query × Option JelErr
  | .cons a (.cons b (.cons c .nil)) =>
    match decodeV0 ty (q.app "(") a with
    | (q1, some e) => (q1, some e)
    | (q1, none) =>
      match decodeV0 ty (q1.app "between") b with
      | (q2, some e) => (q2, some e)
      | (q2, none) =>
        match decodeV0 ty (q2.app "and") c with
        | (q3, some e) => (q3, some e)
        | (q3, none) => (q3.app ")", none)
  | args => (q, some (.arity name (jlength args)))

/-- The tail of a variadic infix operation (old decoder). -/
def decodeInfRestV0 (ty : Option Ty) (name : String) (q : Query) :
    JsonList → Query × Option JelErr
  | .nil => (q, none)
  | .cons a rest =>
    match decodeV0 ty (q.app name) a with
    | (q1, some e) => (q1, some e)
    | (q1, none) => decodeInfRestV0 ty name q1 rest

/-- The argument loop of `decodeOpFunc` (old decoder) from the second
element on: each remaining argument is preceded by a direct `", "`
append. -/
def decodeFunRestV0 (ty : Option Ty) (q : Query) :
    JsonList → Query × Option JelErr
  | .nil => (q, none)
  | .cons a rest =>
    match decodeV0 ty (q.raw ", ") a with
    | (q1, some e) => (q1, some e)
    | (q1, none) => decodeFunRestV0 ty q1 rest
end

/--
Model of `Expr.UnmarshalText` / `Expr.UnmarshalJSON` of the older decoder: decode
the input immediately, starting from an empty embedded query.  Internal
panics are recovered (`rec`/`must`) into returned `error` values, so the
outcome is a value or a returned error, never an escaped panic.
-/
def unmarshalV0 (ty : Option Ty) (j : Json) : Outcome Query :=
  match decodeV0 ty ⟨"", []⟩ j with
  | (q, none) => .ok q
  | (_, some e) => .err e

/-- The raw-text view of the current `Expr` (`jel.go`), as seen by its
unmarshalling entry points, which store the bytes without validation. -/
structure ExprRaw where
  text : String
  isBool : Bool

/-- Model of `Expr.UnmarshalText` (`jel.go`): store the input, return `nil`.  (The
zero-copy `bytesToMutableString` is content-preserving.) -/
def unmarshalTextV1 (e : ExprRaw) (input : String) :
    ExprRaw × Option JelErr :=
  ({ e with text := input }, none)

/-- Model of `Expr.UnmarshalJSON` (`jel.go`): store the input (via the allocating
`bytesToStringAlloc`, also content-preserving), return `nil`. -/
def unmarshalJsonV1 (e : ExprRaw) (input : String) :
    ExprRaw × Option JelErr :=
  ({ e with text := input }, none)

/-- Test whether `d` lowercased letter by letter is `asc` or `desc`: the effect of the
`(?i)` group of `ordReg` plus the later `strings.EqualFold(match[2],
"desc")`.  Returns the descending flag. -/
def lowerEqAscDesc (d : List Char) : Option Bool :=
  if d.map Char.toLower = ['a', 's', 'c'] then some false
  else if d.map Char.toLower = ['d', 'e', 's', 'c'] then some true
  else none

/--
Model of `ordReg.FindStringSubmatch` for the anchored pattern
`^((?:\w+\.)*\w+)\s+(?i)(asc|desc)$` (`utils.go`): since word characters,
whitespace and the direction keyword are drawn from disjoint character
classes, the regexp match is equivalent to maximal-munch: the longest
prefix of word/dot characters must match the dotted-path pattern, then at
least one whitespace character, then (case-insensitively) `asc` or `desc`
to the end.  Returns the identifier capture and the descending flag.
-/
def ordRegMatch (s : String) : Option (String × Bool) :=
  if dottedAux false (s.toList.takeWhile isIdentChar) = true then
    if (s.toList.dropWhile isIdentChar).takeWhile isGoSpace = [] then none
    else
      match lowerEqAscDesc ((s.toList.dropWhile isIdentChar).dropWhile isGoSpace) with
      | some b => some (String.mk (s.toList.takeWhile isIdentChar), b)
      | none => none
  else none

/-- A structured ordering (`Ord` in `ord.go`): a column path plus a
descending flag (`false` = ascending, the SQL default). -/
structure Ord where
  path : List String
  isDesc : Bool

/-- Model of `Ords.parseOrd`: match the directive against `ordReg`, then resolve
the identifier through `structFieldByJsonPath`. -/
def parseOrd (ty : Option Ty) (s : String) : Except JelErr Ord :=
  match ordRegMatch s with
  | none => .error (.badOrd s)
  | some (ident, dsc) =>
    match fieldByJsonPath ty ident with
    | .error e => .error e
    | .ok (_, path) => .ok ⟨path, dsc⟩

/-- Model of `Ords.ParseSlice`: parse the directives in order, appending each parsed
ordering to the items; the first failure stops the loop and is returned,
with the items parsed so far left in place. -/
def parseSlice (ty : Option Ty) : List String → List Ord × Option JelErr
  | [] => ([], none)
  | v :: rest =>
    match parseOrd ty v with
    | .error e => ([], some e)
    | .ok o =>
      match parseSlice ty rest with
      | (os, e?) => (o :: os, e?)

/-- Specification-side helper: all-or-nothing parsing of a directive list,
returning either every parsed ordering or the first error.  Used to state
which prefix `ParseSlice` retains. -/
def parseList (ty : Option Ty) : List String → Except JelErr (List Ord)
  | [] => .ok []
  | v :: rest =>
    match parseOrd ty v with
    | .error e => .error e
    | .ok o =>
      match parseList ty rest with
      | .error e => .error e
      | .ok os => .ok (o :: os)

/-- Model of `isWhitespaceChar` (`utils.go`): space, newline, carriage
return, tab, vertical tab. -/
def isWhitespaceChar (c : Char) : Bool :=
  c == ' ' || c == '\n' || c == '\r' || c == '\t' || c == Char.ofNat 11

/-- Model of `appendSpaceIfNeeded` (`utils.go`). -/
def appendSpaceIfNeeded (buf : String) : String :=
  match buf.toList.getLast? with
  | none => buf
  | some c => if isWhitespaceChar c then buf else buf ++ " "

/-- Model of `Ord.AppendBytes` (`ord.go`): the quoted column path, a space, and the
direction keyword.  The quote-check panic of `appendSqlPath` escapes, here
as the error component. -/
def ordAppendSql (buf : String) (o : Ord) : String × Option JelErr :=
  match appendSqlPathGo buf o.path with
  | (b, some e) => (b, some e)
  | (b, none) => (b ++ " " ++ (if o.isDesc then "desc" else "asc"), none)

/-- The loop of `Ords.AppendBytes`: `order by ` once before the first item
(space-separated from prior text), then `, `-joined orderings. -/
def ordsRenderAux (first : Bool) (buf : String) :
    List Ord → String × Option JelErr
  | [] => (buf, none)
  | o :: rest =>
    match ordAppendSql
        (if first then appendSpaceIfNeeded buf ++ "order by "
         else buf ++ ", ") o with
    | (b, some e) => (b, some e)
    | (b, none) => ordsRenderAux false b rest

/-- Model of `Ords.AppendBytes` / `Ords.String` on an empty initial buffer. -/
def ordsRender (items : List Ord) : String × Option JelErr :=
  ordsRenderAux true "" items

/-- A tower of `n` nested `["not", ...]` calls around `true`: a concrete
family of inputs of unbounded nesting depth. -/
def nestNot : Nat → Json
  | 0 => .bool true
  | n + 1 => .arr (.cons (.str "not") (.cons (nestNot n) .nil))

/-- The `External` test schema of the repository's own tests:
`externalName → external_name : string` and
`internal → internal : struct { internalTime → internal_time : *time.Time }`. -/
def extTy : Ty :=
  .structT (.cons "externalName" "external_name" .str
    (.cons "internal" "internal"
      (.structT (.cons "internalTime" "internal_time" .time .nil)) .nil))

/-- The JSON query of `TestTranscode` / `ExampleExpr`. -/
def testJson : Json :=
  .arr (.cons (.str "and")
    (.cons (.arr (.cons (.str "or")
      (.cons (.bool false)
        (.cons (.arr (.cons (.str "=")
          (.cons (.str "externalName")
            (.cons (.arr (.cons (.str "externalName")
              (.cons (.str "literal string") .nil)))
              .nil))))
          .nil))))
      (.cons (.arr (.cons (.str "and")
        (.cons (.bool true)
          (.cons (.arr (.cons (.str "<")
            (.cons (.str "internal.internalTime")
              (.cons (.arr (.cons (.str "internal.internalTime")
                (.cons (.str "9999-01-01T00:00:00Z") .nil)))
                .nil))))
            .nil))))
        .nil)))

/--
The shape demanded by the spec for an ordering directive: a dotted
word-character identifier, then at least one whitespace character, then
(case-insensitively) `asc` or `desc`, with nothing before or after.  This
is the specification-side reading of `^(dotted)\s+(?i)(asc|desc)$`, as an
existential decomposition of the string, to be compared with the
deterministic matcher `ordRegMatch`.
-/
def OrdShape (s : String) : Prop :=
  ∃ p w d : List Char,
    s.toList = p ++ w ++ d ∧
    dottedAux false p = true ∧
    w ≠ [] ∧
    (∀ c ∈ w, isGoSpace c = true) ∧
    (d.map Char.toLower = ['a', 's', 'c'] ∨
     d.map Char.toLower = ['d', 'e', 's', 'c'])

/-- Regression anchor: the current decoder reproduces the exact text and
argument list expected by the repository's `TestTranscode`/`ExampleExpr`. -/
example :
    appendExprV1 ⟨some testJson, some extTy, true⟩ "" [] =
      .ok ("(($1 or (\"external_name\" = $2)) and ($3 and ((\"internal\").\"internal_time\" < $4)))",
        [.bool false, .str "literal string", .bool true,
         .time "9999-01-01T00:00:00Z"]) := rfl

/-- Regression anchor: the older decoder reproduces the exact text and
argument list expected by the old test file. -/
example :
    decodeV0 (some extTy) ⟨"", []⟩ testJson =
      (⟨"( ( $1 or (\"external_name\" = $2 ) ) and ( $3 and ((\"internal\").\"internal_time\" < $4 ) ) )",
        [.bool false, .str "literal string", .bool true,
         .time "9999-01-01T00:00:00Z"]⟩, none) := rfl

/-- Regression anchor: ordering parsing matches `TestOrdsDec`. -/
example :
    parseSlice (some extTy) ["externalName asc", "internal.internalTime desc"] =
      ([⟨["external_name"], false⟩, ⟨["internal", "internal_time"], true⟩],
        none) := rfl

/-- Every element of a `takeWhile` prefix satisfies the predicate. -/
theorem mem_takeWhile_sat (q : Char → Bool) :
    ∀ (l : List Char), ∀ c ∈ l.takeWhile q, q c = true := by
  intro l
  induction l with
  | nil => intro c hc; simp [List.takeWhile] at hc
  | cons a t ih =>
    intro c hc
    by_cases hq : q a
    · rw [List.takeWhile_cons, if_pos hq] at hc
      rcases List.mem_cons.mp hc with h | h
      · exact h ▸ hq
      · exact ih c h
    · rw [List.takeWhile_cons, if_neg hq] at hc
      simp at hc

/-- Splitting `takeWhile`/`dropWhile` across a fully satisfying prefix. -/
theorem takeWhile_append_sat (q : Char → Bool) (p rest : List Char)
    (hp : ∀ c ∈ p, q c = true) :
    (p ++ rest).takeWhile q = p ++ rest.takeWhile q ∧
    (p ++ rest).dropWhile q = rest.dropWhile q := by
  induction p with
  | nil => simp
  | cons a t ih =>
    have ha : q a = true := hp a (List.mem_cons_self a t)
    have iht := ih (fun c hc => hp c (List.mem_cons_of_mem a hc))
    refine ⟨?_, ?_⟩
    · rw [List.cons_append, List.takeWhile_cons, if_pos ha, iht.1, List.cons_append]
    · rw [List.cons_append, List.dropWhile_cons, if_pos ha, iht.2]

/-- A failing head stops `takeWhile` immediately. -/
theorem take_drop_head_false (q : Char → Bool) (c : Char) (rest : List Char)
    (hc : q c = false) :
    (c :: rest).takeWhile q = [] ∧ (c :: rest).dropWhile q = c :: rest := by
  constructor
  · rw [List.takeWhile_cons, if_neg (by simp [hc])]
  · rw [List.dropWhile_cons, if_neg (by simp [hc])]

/-- Every character of a string accepted by `dottedAux` is a word
character or a dot. -/
theorem dottedAux_chars :
    ∀ (l : List Char) (b : Bool), dottedAux b l = true →
      ∀ c ∈ l, isIdentChar c = true := by
  intro l
  induction l with
  | nil => intro b _ c hc; simp at hc
  | cons a t ih =>
    intro b h c hc
    unfold dottedAux at h
    by_cases hw : isWordChar a
    · rw [if_pos hw] at h
      rcases List.mem_cons.mp hc with rfl | hct
      · simp [isIdentChar, hw]
      · exact ih true h c hct
    · rw [if_neg hw] at h
      by_cases hd : a == '.'
      · rw [if_pos hd] at h
        simp only [Bool.and_eq_true] at h
        rcases List.mem_cons.mp hc with rfl | hct
        · simp [isIdentChar, hd]
        · exact ih false h.2 c hct
      · rw [if_neg hd] at h
        exact absurd h (by simp)

/-- A whitespace character is neither a word character nor a dot. -/
theorem space_not_ident (c : Char) (h : isGoSpace c = true) :
    isIdentChar c = false := by
  unfold isGoSpace at h
  simp only [Bool.or_eq_true, beq_iff_eq] at h
  rcases h with (((h | h) | h) | h) | h <;> subst h <;> decide

/-- Lowercasing fixes every Go-regexp whitespace character. -/
theorem space_toLower_self (c : Char) (h : isGoSpace c = true) :
    c.toLower = c := by
  unfold isGoSpace at h
  simp only [Bool.or_eq_true, beq_iff_eq] at h
  rcases h with (((h | h) | h) | h) | h <;> subst h <;> decide

/-- Inverting `List.map Char.toLower` on a cons cell. -/
theorem map_toLower_head (d : List Char) (x : Char) (xs : List Char)
    (h : d.map Char.toLower = x :: xs) :
    ∃ c cs, d = c :: cs ∧ c.toLower = x ∧ cs.map Char.toLower = xs := by
  cases d with
  | nil => simp at h
  | cons c cs =>
    simp only [List.map_cons, List.cons.injEq] at h
    exact ⟨c, cs, rfl, h.1, h.2⟩

/-- Success of `appendSqlRest` on quote-free segments, with the rendered
tail characterized segment by segment. -/
theorem appendSqlRest_ok :
    ∀ (rest : List String) (buf : String),
      (∀ s ∈ rest, hasQuote s = false) →
      appendSqlRest buf rest =
        (buf ++ strConcat (rest.map fun s => ".\"" ++ s ++ "\""), none) := by
  intro rest
  induction rest with
  | nil => intro buf _; simp [appendSqlRest, strConcat]
  | cons s r ih =>
    intro buf h
    have hs : hasQuote s = false := h s (List.mem_cons_self s r)
    have hr := ih (buf ++ ".\"" ++ s ++ "\"")
      (fun x hx => h x (List.mem_cons_of_mem s hx))
    rw [appendSqlRest, if_neg (by simp [hs]), hr]
    simp [strConcat, String.append_assoc]

/-- Success of `appendSqlPathGo` on quote-free paths: the output is the
input buffer followed by the spec's rendering convention. -/
theorem appendSqlPath_ok (buf : String) (path : List String)
    (h : ∀ s ∈ path, hasQuote s = false) :
    appendSqlPathGo buf path = (buf ++ renderPathSpec path, none) := by
  cases path with
  | nil => simp [appendSqlPathGo, renderPathSpec]
  | cons first rest =>
    have hf : hasQuote first = false := h first (List.mem_cons_self first rest)
    rw [appendSqlPathGo, if_neg (by simp [hf]),
      appendSqlRest_ok rest _ (fun x hx => h x (List.mem_cons_of_mem first hx)),
      renderPathSpec]
    cases rest <;> simp [String.append_assoc]

/-- A quoted segment anywhere in the tail makes `appendSqlRest` fail. -/
theorem appendSqlRest_err :
    ∀ (rest : List String) (buf : String),
      (∃ s ∈ rest, hasQuote s = true) →
      ((appendSqlRest buf rest).2).isSome = true := by
  intro rest
  induction rest with
  | nil => intro buf h; simp at h
  | cons s r ih =>
    intro buf ⟨x, hx, hq⟩
    by_cases hs : hasQuote s
    · rw [appendSqlRest, if_pos hs]; rfl
    · rw [appendSqlRest, if_neg hs]
      rcases List.mem_cons.mp hx with rfl | hxr
      · exact absurd hq (by simp [hs])
      · exact ih _ ⟨x, hxr, hq⟩

/-- A quoted segment anywhere in the path makes `appendSqlPathGo` fail. -/
theorem appendSqlPath_err (buf : String) (path : List String)
    (h : ∃ s ∈ path, hasQuote s = true) :
    ((appendSqlPathGo buf path).2).isSome = true := by
  cases path with
  | nil => simp at h
  | cons first rest =>
    obtain ⟨x, hx, hq⟩ := h
    by_cases hf : hasQuote first
    · rw [appendSqlPathGo, if_pos hf]; rfl
    · rw [appendSqlPathGo, if_neg hf]
      rcases List.mem_cons.mp hx with rfl | hxr
      · exact absurd hq (by simp [hf])
      · exact appendSqlRest_err rest _ ⟨x, hxr, hq⟩

/--
Claim C3: every storage identifier emitted into SQL by `appendSqlPath`
(used for field paths in old-decoder expressions and for every ordering)
is wrapped in double quotes — on a quote-free path the output is exactly
the input buffer followed by the quoted rendering — and any resolved
identifier containing a double-quote character makes the operation fail
(the quote is never emitted or stripped).
-/
theorem c3_identifier_quoting :
    ∀ (buf : String) (path : List String),
      ((∀ s ∈ path, hasQuote s = false) →
        appendSqlPathGo buf path = (buf ++ renderPathSpec path, none)) ∧
      ((∃ s ∈ path, hasQuote s = true) →
        ((appendSqlPathGo buf path).2).isSome = true) :=
  fun buf path => ⟨appendSqlPath_ok buf path, appendSqlPath_err buf path⟩

/-- Witness for C3 at concrete inputs: a clean path renders fully quoted;
a path with an embedded double quote fails. -/
theorem c3_witness :
    appendSqlPathGo "" ["external_name"] = ("\"external_name\"", none) ∧
    ((appendSqlPathGo "" ["internal", "bad\"col"]).2).isSome = true := by
  constructor
  · exact ((c3_identifier_quoting "" ["external_name"]).1 (by decide)).trans (by rfl)
  · exact (c3_identifier_quoting "" ["internal", "bad\"col"]).2
      ⟨"bad\"col", by decide, by decide⟩

/--
Claim C7: a resolved field path of length 1 renders as a single
double-quoted identifier, and a path of length greater than 1 renders the
first segment parenthesized-and-quoted followed by each subsequent segment
as `."segment"` — only the first segment is parenthesized.
-/
theorem c7_path_rendering :
    ∀ (a : String) (rest : List String),
      hasQuote a = false → (∀ s ∈ rest, hasQuote s = false) →
      (appendSqlPathGo "" [a] = ("\"" ++ a ++ "\"", none)) ∧
      (rest ≠ [] → appendSqlPathGo "" (a :: rest) =
        ("(\"" ++ a ++ "\")" ++
          strConcat (rest.map fun s => ".\"" ++ s ++ "\""), none)) := by
  intro a rest ha hr
  constructor
  · have h := appendSqlPath_ok "" [a] (by intro s hs; simp at hs; exact hs ▸ ha)
    rw [h]
    simp [renderPathSpec, strConcat, String.empty_append]
  · intro hne
    have h := appendSqlPath_ok "" (a :: rest) (by
      intro s hs
      rcases List.mem_cons.mp hs with rfl | hsr
      · exact ha
      · exact hr s hsr)
    rw [h, renderPathSpec]
    rw [if_neg (by simpa using hne)]
    simp [String.empty_append]

/-- Witness for C7 at concrete paths of length 1 and 3. -/
theorem c7_witness :
    appendSqlPathGo "" ["a"] = ("\"a\"", none) ∧
    appendSqlPathGo "" ["a", "b", "c"] = ("(\"a\").\"b\".\"c\"", none) := by
  constructor
  · exact ((c7_path_rendering "a" [] (by decide) (by decide)).1).trans (by rfl)
  · exact ((c7_path_rendering "a" ["b", "c"] (by decide) (by decide)).2
      (by decide)).trans (by rfl)

/--
Claim C5: if the expression is in boolean context and the stored input
text is empty, compiling (with empty initial buffers) produces exactly the
SQL text `true` and an argument list of length zero.
-/
theorem c5_empty_bool_true :
    ∀ e : Expr, e.isBool = true → e.text = none →
      appendExprV1 e "" [] = .ok ("true", []) := by
  intro e h1 h2
  cases e with
  | mk t ty ib =>
    dsimp at h1 h2
    subst h1; subst h2
    rfl

/-- Witness for C5 at a concrete boolean-context empty expression. -/
theorem c5_witness :
    appendExprV1 ⟨none, some extTy, true⟩ "" [] = .ok ("true", []) :=
  c5_empty_bool_true ⟨none, some extTy, true⟩ rfl rfl

/--
Claim C9: compilation is deterministic — two expressions with the same
stored text, the same schema type and the same boolean-context flag
compile to identical SQL text and identical argument sequences.
-/
theorem c9_deterministic :
    ∀ (e1 e2 : Expr) (text : String) (args : List Val),
      e1.text = e2.text → e1.type = e2.type → e1.isBool = e2.isBool →
      appendExprV1 e1 text args = appendExprV1 e2 text args := by
  intro e1 e2 text args h1 h2 h3
  cases e1; cases e2
  dsimp at h1 h2 h3
  subst h1; subst h2; subst h3
  rfl

/-- Witness for C9: the repository's own test query compiled twice. -/
theorem c9_witness :
    appendExprV1 ⟨some testJson, some extTy, true⟩ "" [] =
      appendExprV1 ⟨some testJson, some extTy, true⟩ "" [] :=
  c9_deterministic ⟨some testJson, some extTy, true⟩
    ⟨some testJson, some extTy, true⟩ "" [] rfl rfl rfl

/--
Claim C10: `Expr.UnmarshalText` and `Expr.UnmarshalJSON` (current decoder)
return `nil` for every input and merely store the raw bytes; no validation
happens until `AppendExpr` runs the decoder.
-/
theorem c10_unmarshal_returns_nil :
    ∀ (e : ExprRaw) (input : String),
      unmarshalTextV1 e input = ({ e with text := input }, none) ∧
      unmarshalJsonV1 e input = ({ e with text := input }, none) :=
  fun _ _ => ⟨rfl, rfl⟩

set_option maxHeartbeats 1600000 in
/--
Claim C6: a list whose head string is not in the operator whitelist is a
cast.  The dispatch goes to `decodeCast`; any argument count other than
one fails; with exactly one argument, the head is resolved as a field path
to obtain the leaf field's type, the argument is JSON-decoded into an
instance of that type and appended as exactly one positional parameter,
and the SQL text gains only the placeholder — the identifier itself is
never emitted.
-/
theorem c6_cast_semantics :
    ∀ (ty : Option Ty) (bui : Bui) (name : String) (args : JsonList),
      sqlOpsLookup name = none →
      (decodeListV1 ty bui (.cons (.str name) args) =
        decodeCastV1 ty bui name args) ∧
      (jlength args ≠ 1 → decodeCastV1 ty bui name args =
        .error (.castArity name (jlength args))) ∧
      (∀ a : Json, args = .cons a .nil →
        decodeCastV1 ty bui name args =
          match fieldByJsonPath ty name with
          | .error e => .error e
          | .ok (leaf, _) =>
            match decodeTy leaf a with
            | none => .error .castDecode
            | some v =>
              .ok ⟨(Bui.str bui (placeholder (bui.args.length + 1))).text,
                bui.args ++ [v]⟩) := by
  intro ty bui name args h
  refine ⟨?_, ?_, ?_⟩
  · rw [decodeListV1, h]
  · intro hne
    cases args with
    | nil => rfl
    | cons a t =>
      cases t with
      | nil => exact absurd (by simp [jlength]) hne
      | cons b t2 => rfl
  · intro a ha
    subst ha
    rfl

/-- Witness for C6: casting through the unlisted head `externalName` with
one string argument appends exactly one parameter and emits only `$1`. -/
theorem c6_witness :
    decodeCastV1 (some extTy) ⟨"", []⟩ "externalName"
      (.cons (.str "lit") .nil) = .ok ⟨"$1", [.str "lit"]⟩ := by
  have h := (c6_cast_semantics (some extTy) ⟨"", []⟩ "externalName"
    (.cons (.str "lit") .nil) rfl).2.2 (.str "lit") rfl
  exact h.trans (by rfl)

set_option maxHeartbeats 1600000 in
/-- Decoding a tower of nested `not` calls always succeeds, from any
buffer state: the decoder has no depth counter to trip. -/
theorem decode_nestNot_ok :
    ∀ (n : Nat) (ty : Option Ty) (b : Bui),
      ∃ b', decodeV1 ty b (nestNot n) = .ok b' := by
  intro n
  induction n with
  | zero =>
    intro ty b
    exact ⟨b.param (.bool true), rfl⟩
  | succ n ih =>
    intro ty b
    obtain ⟨b', hb⟩ := ih ty ((b.str "(").str "not")
    refine ⟨b'.str ")", ?_⟩
    have hop : sqlOpsLookup "not" = some SqlOpForm.opPre := rfl
    rw [nestNot, decodeV1, decodeListV1, hop]
    show decodeOpPreV1 ty "not" b (.cons (nestNot n) .nil) = _
    rw [decodeOpPreV1, hb]

set_option maxRecDepth 40000 in
set_option maxHeartbeats 2000000 in
/--
Claim C1, counterexample: an input nested 120 levels deep (well beyond the
claimed maximum of 100) compiles successfully; compilation does not fail,
with a `TooDeep` error or otherwise.
-/
theorem c1_counterexample :
    100 < jsonDepth (nestNot 120) ∧
    (appendExprV1 ⟨some (nestNot 120), none, false⟩ "" []).isOk = true :=
  ⟨by decide, by decide⟩

/--
Claim C1, amended: no maximum nesting depth is enforced and no `TooDeep`
error exists anywhere in the code; the decoder recurses structurally over
the parsed input, so arbitrarily deeply nested expressions (such as a
tower of `n` nested `not` calls for every `n`) compile successfully —
recursion depth is bounded only by the input's own nesting.
-/
theorem c1_amended :
    ∀ (n : Nat) (ty : Option Ty) (ib : Bool) (text : String)
      (args : List Val),
      ∃ out, appendExprV1 ⟨some (nestNot n), ty, ib⟩ text args = .ok out := by
  intro n ty ib text args
  obtain ⟨b', hb⟩ := decode_nestNot_ok n ty ⟨text, args⟩
  exact ⟨(b'.text, b'.args), by simp [appendExprV1, hb]⟩

/--
Claim C2, counterexample: compiling the JSON object `{}` through
`Expr.AppendExpr` (current decoder) escapes as a panic — an uncaught
fault, not a returned error.
-/
theorem c2_counterexample :
    appendExprV1 ⟨some (.obj .nil), some extTy, true⟩ "" [] =
      .fault .unexpectedDict := rfl

/--
Claim C2, amended: a failing compile surfaces as a returned error — never
an escaped panic — at the older decoder's unmarshalling entry points
(where `rec`/`must` convert panics back into errors); but at the current
`Expr.AppendExpr`, whose `sqlb.Expr` signature has no error result and
which installs no `recover`, a failing compile escapes as a panic and is
never surfaced as a returned error value.
-/
theorem c2_amended :
    ∀ (ty : Option Ty) (j : Json) (ib : Bool) (text : String)
      (args : List Val),
      (∀ e : JelErr, unmarshalV0 ty j ≠ .fault e) ∧
      (∀ e : JelErr, appendExprV1 ⟨some j, ty, ib⟩ text args ≠ .err e) := by
  intro ty j ib text args
  constructor
  · intro e h
    unfold unmarshalV0 at h
    split at h
    · exact Outcome.noConfusion h
    · exact Outcome.noConfusion h
  · intro e h
    unfold appendExprV1 at h
    dsimp only at h
    split at h
    · exact Outcome.noConfusion h
    · exact Outcome.noConfusion h

/--
Claim C4, counterexample: failures do leave observable partial state.
Parsing the ordering directives `["externalName asc", "bogus!"]` returns
the first error, yet the successfully parsed first ordering remains in the
items — and rendering it produces partial SQL text.  Likewise the older
expression decoder, failing on the dict in `["and", true, {}]`, returns an
error while its embedded query retains the partial SQL text `( $1 and`
and the partial argument list.
-/
theorem c4_counterexample :
    parseSlice (some extTy) ["externalName asc", "bogus!"] =
      ([⟨["external_name"], false⟩], some (.badOrd "bogus!")) ∧
    (ordsRender [⟨["external_name"], false⟩]).1 =
      "order by \"external_name\" asc" ∧
    decodeV0 (some extTy) ⟨"", []⟩
        (.arr (.cons (.str "and")
          (.cons (.bool true) (.cons (.obj .nil) .nil)))) =
      (⟨"( $1 and", [.bool true]⟩, some .unexpectedDict) :=
  ⟨rfl, rfl, rfl⟩

/--
Claim C4, amended: the first failure aborts the operation and is the error
returned — directives after it are never processed — but the operation is
not free of partial effects: `Ords.ParseSlice` leaves exactly the
orderings parsed before the failure in its items (and the old decoder's
embedded query keeps its partial text and arguments, per the
counterexample).  The current `AppendExpr` yields no result on failure
(the panic carries no partial output).
-/
theorem c4_amended :
    ∀ (ty : Option Ty) (pre : List String) (outs : List Ord) (bad : String)
      (e : JelErr) (post : List String),
      parseList ty pre = .ok outs → parseOrd ty bad = .error e →
      parseSlice ty (pre ++ bad :: post) = (outs, some e) := by
  intro ty pre
  induction pre with
  | nil =>
    intro outs bad e post h1 h2
    simp [parseList] at h1
    subst h1
    simp [parseSlice, h2]
  | cons v vs ih =>
    intro outs bad e post h1 h2
    rw [parseList] at h1
    cases hv : parseOrd ty v with
    | error e' => rw [hv] at h1; exact absurd h1 (by simp)
    | ok o =>
      rw [hv] at h1
      cases hvs : parseList ty vs with
      | error e'' => rw [hvs] at h1; exact absurd h1 (by simp)
      | ok os =>
        rw [hvs] at h1
        have houts : outs = o :: os := by
          simpa using h1.symm
        subst houts
        rw [List.cons_append, parseSlice, hv, ih os bad e post hvs h2]

/-- Witness for C4 (amended) at a concrete directive list: one good
directive, then a malformed one, then an unprocessed tail. -/
theorem c4_witness :
    parseSlice (some extTy)
        (["externalName asc"] ++ "bogus!" :: ["internal.internalTime desc"]) =
      ([⟨["external_name"], false⟩], some (.badOrd "bogus!")) :=
  c4_amended (some extTy) ["externalName asc"] [⟨["external_name"], false⟩]
    "bogus!" (.badOrd "bogus!") ["internal.internalTime desc"] rfl rfl

/-- The string of a successful `lowerEqAscDesc` lowercases to `asc` or
`desc`, and conversely. -/
theorem lowerEqAscDesc_isSome (d : List Char) :
    (lowerEqAscDesc d).isSome = true ↔
      (d.map Char.toLower = ['a', 's', 'c'] ∨
       d.map Char.toLower = ['d', 'e', 's', 'c']) := by
  unfold lowerEqAscDesc
  constructor
  · intro h
    split_ifs at h with h1 h2
    · exact Or.inl h1
    · exact Or.inr h2
    · simp at h
  · intro h
    rcases h with h | h
    · rw [if_pos h]; rfl
    · by_cases h1 : d.map Char.toLower = ['a', 's', 'c']
      · rw [if_pos h1]; rfl
      · rw [if_neg h1, if_pos h]; rfl

/-- A list whose lowercase image is `asc` or `desc` starts with a
non-whitespace character. -/
theorem ascdesc_head_not_space (d : List Char)
    (h : d.map Char.toLower = ['a', 's', 'c'] ∨
         d.map Char.toLower = ['d', 'e', 's', 'c']) :
    ∃ d0 d', d = d0 :: d' ∧ isGoSpace d0 = false := by
  rcases h with h | h
  · obtain ⟨c, cs, hdc, hcl, _⟩ := map_toLower_head d 'a' ['s', 'c'] h
    refine ⟨c, cs, hdc, ?_⟩
    cases hgs : isGoSpace c
    · rfl
    · exfalso
      have hcc := space_toLower_self c hgs
      have hca : c = 'a' := by rw [← hcc, hcl]
      rw [hca] at hgs
      exact absurd hgs (by decide)
  · obtain ⟨c, cs, hdc, hcl, _⟩ := map_toLower_head d 'd' ['e', 's', 'c'] h
    refine ⟨c, cs, hdc, ?_⟩
    cases hgs : isGoSpace c
    · rfl
    · exfalso
      have hcc := space_toLower_self c hgs
      have hca : c = 'd' := by rw [← hcc, hcl]
      rw [hca] at hgs
      exact absurd hgs (by decide)

/--
Claim C8: an ordering directive parses past the syntax gate exactly when
it is a dotted word-character identifier, whitespace, then `asc` or `desc`
matched case-insensitively — the regexp `ordReg` matches exactly the
strings of that shape — and any deviation (such as an extra qualifier)
makes `parseOrd` return the invalid-ordering-syntax error.
-/
theorem c8_ord_directive_format :
    ∀ (s : String) (ty : Option Ty),
      ((ordRegMatch s).isSome = true ↔ OrdShape s) ∧
      (ordRegMatch s = none → parseOrd ty s = .error (.badOrd s)) := by
  intro s ty
  constructor
  · constructor
    · intro h
      unfold ordRegMatch at h
      split_ifs at h with hdot hwe
      · simp at h
      · cases heq : lowerEqAscDesc ((s.toList.dropWhile isIdentChar).dropWhile isGoSpace) with
        | none => rw [heq] at h; simp at h
        | some b =>
          refine ⟨s.toList.takeWhile isIdentChar,
            (s.toList.dropWhile isIdentChar).takeWhile isGoSpace,
            (s.toList.dropWhile isIdentChar).dropWhile isGoSpace,
            ?_, hdot, hwe, ?_, ?_⟩
          · rw [List.append_assoc,
              List.takeWhile_append_dropWhile isGoSpace
                (s.toList.dropWhile isIdentChar),
              List.takeWhile_append_dropWhile isIdentChar s.toList]
          · exact mem_takeWhile_sat isGoSpace _
          · exact (lowerEqAscDesc_isSome _).mp (by rw [heq]; rfl)
      · simp at h
    · rintro ⟨p, w, d, hsplit, hdot, hw, hws, hd⟩
      cases w with
      | nil => exact absurd rfl hw
      | cons w0 w' =>
        have hw0 : isGoSpace w0 = true := hws w0 (List.mem_cons_self w0 w')
        have hpident : ∀ c ∈ p, isIdentChar c = true := dottedAux_chars p false hdot
        have hw0id : isIdentChar w0 = false := space_not_ident w0 hw0
        obtain ⟨d0, d', hdd, hd0sp⟩ := ascdesc_head_not_space d hd
        have hsplit' : s.toList = p ++ (w0 :: (w' ++ d)) := by
          rw [hsplit, List.append_assoc, List.cons_append]
        have h1 := takeWhile_append_sat isIdentChar p (w0 :: (w' ++ d)) hpident
        have h2 := take_drop_head_false isIdentChar w0 (w' ++ d) hw0id
        have hwspace : ∀ c ∈ w0 :: w', isGoSpace c = true := hws
        have h3 := takeWhile_append_sat isGoSpace (w0 :: w') d hwspace
        have h4 := take_drop_head_false isGoSpace d0 d' hd0sp
        have htake : s.toList.takeWhile isIdentChar = p := by
          rw [hsplit', h1.1, h2.1, List.append_nil]
        have hdrop : s.toList.dropWhile isIdentChar = w0 :: (w' ++ d) := by
          rw [hsplit', h1.2, h2.2]
        have hwd : (w0 :: (w' ++ d)) = (w0 :: w') ++ d := by
          rw [List.cons_append]
        have htake2 : (s.toList.dropWhile isIdentChar).takeWhile isGoSpace =
            w0 :: w' := by
          rw [hdrop, hwd, h3.1, hdd, h4.1, List.append_nil]
        have hdrop2 : (s.toList.dropWhile isIdentChar).dropWhile isGoSpace =
            d := by
          rw [hdrop, hwd, h3.2, hdd, h4.2, ← hdd]
        unfold ordRegMatch
        rw [htake, hdrop2, if_pos hdot, if_neg (by rw [htake2]; simp)]
        have : (lowerEqAscDesc d).isSome = true := (lowerEqAscDesc_isSome d).mpr hd
        cases hlE : lowerEqAscDesc d with
        | none => rw [hlE] at this; simp at this
        | some b => rfl
  · intro hnone
    unfold parseOrd
    rw [hnone]

/-- Witness for C8: the spec's own example of an ordering directive with
an extra qualifier is rejected with the invalid-ordering-syntax error. -/
theorem c8_witness :
    parseOrd (some extTy) "external_name asc nulls last" =
      .error (.badOrd "external_name asc nulls last") :=
  (c8_ord_directive_format "external_name asc nulls last" (some extTy)).2
    (by decide)

end Jel
